import Mathlib

set_option maxRecDepth 10000

/-!
Verification of the rating engine in `rank.py` (classes `RatingCalculator`,
function `get_player_rankings`) against its specification.

The engine folds a history of 4-player games over a per-player belief store
(`self.players`, a Python dict from player id to an openskill rating object),
using one of three openskill models, then sorts the resulting
`(player_id, ordinal)` pairs descending by ordinal to build a leaderboard.

Python-specific semantics embedded here:
- the store is an association list with Python-dict semantics: lookup by key,
  update-in-place keeps the key's position, a new key is appended at the end,
  and iteration (`.values()`) follows that insertion order;
- exceptions propagate but leave already-performed mutations of `self.players`
  in place, so fallible operations return `Except (String × Calculator) _`,
  the error carrying the state at the moment of the raise;
- `sorted(xs, key=lambda x: x[1], reverse=True)` is a stable sort by score
  descending, embedded as `List.insertionSort` with the relation
  `fun a b => b.2 ≤ a.2` (Mathlib's insertion sort is stable).

The numeric update law itself lives in the third-party `openskill` package and
the `RatingModel` enum is imported by `rank.py` from `models` but absent from
the provided `models.py`; both are modelled from the spec, as marked on the
individual definitions below.
-/

namespace TRR

/-- An openskill rating object as used by `rank.py`: created via
`self.model.rating(name=str(player_id))`, carrying a name (the player id),
a mean `mu` and an uncertainty `sigma`.  Machine floats are embedded as `ℚ`. -/
structure Rating where
  name : Nat
  mu : ℚ
  sigma : ℚ
deriving DecidableEq

/-- Modelled from the spec: the `RatingModel` enum is imported by `rank.py`
from `models` but is absent from the provided `models.py`.  Per the spec it is
a pure variant set identifying which of the three update laws to apply. -/
inductive RatingModel where
  | PLACKETT_LUCE
  | BRADLEY_TERRY
  | THURSTONE_MOSTELLER
deriving DecidableEq

/-- Modelled from the spec: an openskill model object
(`PlackettLuce() / BradleyTerryPart() / ThurstoneMostellerPart()`).  The spec
leaves the exact update formulas to the implementation ("the exact constants
are an implementation choice"), requiring only the default-prior constants and
an update law satisfying the invariants of section 4.2; here a model is its
constants: default prior mean and uncertainty, a pairwise update scale, a
multiplicative uncertainty shrink factor, and an uncertainty floor. -/
structure OSModel where
  defaultMu : ℚ
  defaultSigma : ℚ
  kFactor : ℚ
  sigmaShrink : ℚ
  sigmaFloor : ℚ
deriving DecidableEq

/-- Modelled from the spec: `self.model.rating(name=str(player_id))` creates a
fresh rating with the model's default prior and the given name. -/
def OSModel.rating (m : OSModel) (name : Nat) : Rating :=
  ⟨name, m.defaultMu, m.defaultSigma⟩

/-- Modelled from the spec: placements derived from scores, "higher score =
better (lower numeric) placement; equal scores imply equal placement". -/
def placements (scores : List Int) : List Nat :=
  scores.map (fun s => 1 + (scores.filter (fun t => s < t)).length)

/-- Modelled from the spec: pre-game expected placements, derived the same way
from the participants' prior means (higher mean = better expected placement). -/
def expectedPlacements (mus : List ℚ) : List Nat :=
  mus.map (fun m => 1 + (mus.filter (fun m2 => m < m2)).length)

/-- Modelled from the spec: the per-participant update.  The mean moves in
proportion to how much better the participant placed than expected; the
uncertainty shrinks multiplicatively, floored at `sigmaFloor` (spec 4.2:
"shrink uncertainty for all participants as evidence accumulates, never
increase it from an update alone" and "numerically stable for uncertainty
values approaching a configured floor"). -/
def updateOne (m : OSModel) (r : Rating) (expRank actRank : Nat) : Rating :=
  ⟨r.name,
   r.mu + m.kFactor * ((expRank : ℚ) - (actRank : ℚ)),
   if r.sigma ≤ m.sigmaFloor then r.sigma
   else max m.sigmaFloor (r.sigma * m.sigmaShrink)⟩

/-- Extracts the single rating from each one-player team, failing if any team
is not a singleton (rank.py always builds `match = [[r] for r in ratings]`). -/
def asSingles : List (List Rating) → Option (List Rating)
  | [] => some []
  | [r] :: ts => (asSingles ts).map (fun rs => r :: rs)
  | _ => none

/-- The core of the update law on the extracted single ratings: each rating is
updated with its expected and actual placement, positionally. -/
def rateCore (m : OSModel) (rs : List Rating) (scores : List Int) : List Rating :=
  (rs.zip ((expectedPlacements (rs.map (fun r => r.mu))).zip (placements scores))).map
    (fun p => updateOne m p.1 p.2.1 p.2.2)

/-- Modelled from the spec: `self.model.rate(match, scores=scores)`.  Like the
third-party implementation it fails when the scores list does not match the
teams list in length, and returns one updated team per input team, positionally
aligned. -/
def OSModel.rate (m : OSModel) (teams : List (List Rating)) (scores : List Int) :
    Except String (List (List Rating)) :=
  if teams.length = scores.length then
    match asSingles teams with
    | none => .error "only one-player teams are supported"
    | some rs => .ok ((rateCore m rs scores).map (fun r => [r]))
  else
    .error "scores length does not match teams length"

/-- Modelled from the spec: `r.ordinal()`, "a scalar ordinal derived from a
PlayerBelief (mean minus a multiple of uncertainty)"; openskill's documented
multiplier is 3. -/
def ordinal (r : Rating) : ℚ :=
  r.mu - 3 * r.sigma

/-- Modelled from the spec: the openskill PlackettLuce() model, with its documented
default priors (25, 25/3) and this model's update constants. -/
def plackettLuce : OSModel :=
  ⟨25, 25 / 3, 1, 9 / 10, 1 / 100⟩

/-- Modelled from the spec: the openskill BradleyTerryPart() model, same default priors,
different update constants. -/
def bradleyTerryPart : OSModel :=
  ⟨25, 25 / 3, 1 / 2, 11 / 12, 1 / 100⟩

/-- Modelled from the spec: the openskill ThurstoneMostellerPart() model, same default priors,
different update constants. -/
def thurstoneMostellerPart : OSModel :=
  ⟨25, 25 / 3, 1 / 3, 12 / 13, 1 / 100⟩

/-- A `Game` row of `models.py` restricted to the fields `rank.py` reads:
the four seat columns `p1..p4` (player ids, non-nullable). -/
structure Game where
  p1 : Nat
  p2 : Nat
  p3 : Nat
  p4 : Nat
deriving DecidableEq

/-- Embeds `player_ids = [game.p1, game.p2, game.p3, game.p4]` (rank.py line 35). -/
def playerIds (g : Game) : List Nat :=
  [g.p1, g.p2, g.p3, g.p4]

/-- Embeds `scores = [score for _, score in scores]` (rank.py line 42): the player-id
component of each queried `(player_id, score)` row is discarded and the bare
scores are kept in row order. -/
def gameScores (rows : List (Nat × Int)) : List Int :=
  rows.map (fun p => p.2)

/-- The state of a `RatingCalculator`: the selected model and the
`self.players` dict (player id to rating, in Python dict order). -/
structure Calculator where
  model : OSModel
  players : List (Nat × Rating)
deriving DecidableEq

/-- Python dict lookup on the association-list store. -/
def dictGet (d : List (Nat × Rating)) (k : Nat) : Option Rating :=
  match d with
  | [] => none
  | (k2, v) :: rest => if k2 = k then some v else dictGet rest k

/-- Python dict assignment: an existing key keeps its position, a new key is
appended at the end. -/
def dictSet (d : List (Nat × Rating)) (k : Nat) (v : Rating) : List (Nat × Rating) :=
  match d with
  | [] => [(k, v)]
  | (k2, v2) :: rest => if k2 = k then (k2, v) :: rest else (k2, v2) :: dictSet rest k v

/-- Embeds `RatingCalculator._get_or_create_rating` (rank.py lines 26-30): return the
existing rating, or create one from the model's default prior, store it and
return it. -/
def getOrCreate (cal : Calculator) (pid : Nat) : Rating × Calculator :=
  match dictGet cal.players pid with
  | some r => (r, cal)
  | none => (cal.model.rating pid, ⟨cal.model, cal.players ++ [(pid, cal.model.rating pid)]⟩)

/-- Embeds `ratings = [self._get_or_create_rating(pid) for pid in player_ids]`
(rank.py line 38): sequential resolution, threading the store. -/
def resolveAll (cal : Calculator) : List Nat → List Rating × Calculator
  | [] => ([], cal)
  | pid :: rest =>
    let rc := getOrCreate cal pid
    let rs := resolveAll rc.2 rest
    (rc.1 :: rs.1, rs.2)

/-- Embeds `for pid, [rating] in zip(player_ids, updated_ratings):
self.players[pid] = rating` (rank.py lines 48-49): sequential write-back; a
team that is not a singleton raises mid-loop, leaving earlier writes applied. -/
def writeBack (store : List (Nat × Rating)) :
    List (Nat × List Rating) → Except (String × List (Nat × Rating)) (List (Nat × Rating))
  | [] => .ok store
  | (pid, [r]) :: rest => writeBack (dictSet store pid r) rest
  | (_, _) :: _ => .error ("cannot unpack rating from team", store)

/-- Embeds `RatingCalculator.process_game` (rank.py lines 32-49): resolve the four
seats' ratings, build one-player teams, strip the ids off the score rows, call
the model's rate function, and write the updated ratings back keyed by the
zipped player ids.  An error carries the calculator state at the raise. -/
def processGame (cal : Calculator) (g : Game) (scoreRows : List (Nat × Int)) :
    Except (String × Calculator) Calculator :=
  let res := resolveAll cal (playerIds g)
  let teams := res.1.map (fun r => [r])
  match res.2.model.rate teams (gameScores scoreRows) with
  | .error e => .error (e, res.2)
  | .ok updated =>
    match writeBack res.2.players ((playerIds g).zip updated) with
    | .error es => .error (es.1, ⟨res.2.model, es.2⟩)
    | .ok st => .ok ⟨res.2.model, st⟩

/-- A materialized game history: each game together with the
`(player_id, score)` rows the score query returns for it, in query order. -/
abbrev History := List (Game × List (Nat × Int))

/-- The game loop of `RatingCalculator.calculate_ratings` (rank.py lines
57-65): process the games in order; an exception aborts the run. -/
def runGames (cal : Calculator) : History → Except (String × Calculator) Calculator
  | [] => .ok cal
  | (g, rows) :: rest =>
    match processGame cal g rows with
    | .error e => .error e
    | .ok cal2 => runGames cal2 rest

/-- Embeds `[(int(r.name), r.ordinal()) for r in self.players.values()]` (rank.py
line 68): the final ratings in store insertion order. -/
def finalRatings (cal : Calculator) : List (Nat × ℚ) :=
  cal.players.map (fun p => (p.2.name, ordinal p.2))

/-- Embeds `RatingCalculator.calculate_ratings` (rank.py lines 51-68). -/
def calculateRatings (cal : Calculator) (h : History) :
    Except (String × Calculator) (List (Nat × ℚ)) :=
  (runGames cal h).map finalRatings

/-- Embeds `RatingCalculator._get_model` (rank.py lines 15-24): the if/elif chain
over the three enum members, with the final else raising `ValueError` for any
other value (`none` stands for any value that is not one of the three
variants). -/
def getModel (mt : Option RatingModel) : Except String OSModel :=
  if mt = some RatingModel.PLACKETT_LUCE then .ok plackettLuce
  else if mt = some RatingModel.BRADLEY_TERRY then .ok bradleyTerryPart
  else if mt = some RatingModel.THURSTONE_MOSTELLER then .ok thurstoneMostellerPart
  else .error "Unknown model type"

/-- Embeds `RatingCalculator.__init__` (rank.py lines 10-13): select the model and
start from an empty players dict. -/
def mkCalculator (mt : Option RatingModel) : Except String Calculator :=
  (getModel mt).map (fun m => ⟨m, []⟩)

/-- The model selected for a genuine enum member; agrees with `getModel` on
`some mt` (see `getModel_modelFor`). -/
def modelFor (mt : RatingModel) : OSModel :=
  match mt with
  | .PLACKETT_LUCE => plackettLuce
  | .BRADLEY_TERRY => bradleyTerryPart
  | .THURSTONE_MOSTELLER => thurstoneMostellerPart

/-- The sort relation of `sorted(..., key=lambda x: x[1], reverse=True)`
(rank.py lines 82-84): descending by score. -/
def scoreOrd (a b : Nat × ℚ) : Prop :=
  b.2 ≤ a.2

instance : DecidableRel scoreOrd :=
  fun a b => inferInstanceAs (Decidable (b.2 ≤ a.2))

instance : IsTotal (Nat × ℚ) scoreOrd :=
  ⟨fun a b => le_total b.2 a.2⟩

instance : IsTrans (Nat × ℚ) scoreOrd :=
  ⟨fun _ _ _ h1 h2 => le_trans h2 h1⟩

/-- Embeds `sorted(calculator.calculate_ratings(), key=lambda x: x[1], reverse=True)`
(rank.py lines 82-84): Python's sort is stable, so this is the stable
descending sort by score, embedded as insertion sort. -/
def sortRankings (l : List (Nat × ℚ)) : List (Nat × ℚ) :=
  List.insertionSort scoreOrd l

/-- Embeds `ranks = dict(player_id, rank + 1 for rank, (player_id, _) in
enumerate(model_rankings))` (rank.py lines 91-94): rank is the 1-based
position in the sorted leaderboard. -/
def ranksOf (l : List (Nat × ℚ)) : List (Nat × Nat) :=
  l.enum.map (fun p => (p.2.1, p.1 + 1))

/-- The model list iterated by `get_player_rankings` (rank.py lines 76-80). -/
def allModels : List RatingModel :=
  [.PLACKETT_LUCE, .BRADLEY_TERRY, .THURSTONE_MOSTELLER]

/-- One model's full pass as `get_player_rankings` performs it: a fresh
calculator for the model, the rating pass, then the descending sort. -/
def runSingle (mt : RatingModel) (h : History) :
    Except (String × Calculator) (List (Nat × ℚ)) :=
  (calculateRatings ⟨modelFor mt, []⟩ h).map sortRankings

/-- The loop of `get_player_rankings` (rank.py lines 76-84) over a model list:
for each model, a fresh `RatingCalculator` is constructed and its sorted
ratings are recorded; an exception aborts the whole call. -/
def buildAll (h : History) : List RatingModel →
    Except (String × Calculator) (List (RatingModel × List (Nat × ℚ)))
  | [] => .ok []
  | mt :: rest =>
    match calculateRatings ⟨modelFor mt, []⟩ h with
    | .error e => .error e
    | .ok res =>
      match buildAll h rest with
      | .error e => .error e
      | .ok tail => .ok ((mt, sortRankings res) :: tail)

/-- Embeds `get_player_rankings` (rank.py lines 71-112), restricted to the computed
rankings (the trailing session block only copies them into player rows). -/
def getPlayerRankings (h : History) :
    Except (String × Calculator) (List (RatingModel × List (Nat × ℚ))) :=
  buildAll h allModels

/-- The calculator state after a processing step, whether it succeeded or
raised (a Python exception leaves `self.players` as mutated so far). -/
def stateAfter (r : Except (String × Calculator) Calculator) : Calculator :=
  match r with
  | .ok c => c
  | .error e => e.2

/-- The store produced by a write-back, successful or interrupted. -/
def wbStore (r : Except (String × List (Nat × Rating)) (List (Nat × Rating))) :
    List (Nat × Rating) :=
  match r with
  | .ok s => s
  | .error e => e.2

/-! ### Store lemmas -/

theorem dictGet_append (d e : List (Nat × Rating)) (k : Nat) :
    dictGet (d ++ e) k =
      match dictGet d k with
      | some v => some v
      | none => dictGet e k := by
  induction d with
  | nil => simp [dictGet]
  | cons p rest ih =>
    obtain ⟨k2, v2⟩ := p
    by_cases h : k2 = k <;> simp [dictGet, h, ih]

theorem dictGet_dictSet_self (d : List (Nat × Rating)) (k : Nat) (v : Rating) :
    dictGet (dictSet d k v) k = some v := by
  induction d with
  | nil => simp [dictGet, dictSet]
  | cons p rest ih =>
    obtain ⟨k2, v2⟩ := p
    by_cases h : k2 = k <;> simp [dictGet, dictSet, h, ih]

theorem dictGet_dictSet_ne (d : List (Nat × Rating)) {k k2 : Nat} (v : Rating)
    (h : k2 ≠ k) : dictGet (dictSet d k v) k2 = dictGet d k2 := by
  induction d with
  | nil =>
    simp only [dictSet, dictGet]
    rw [if_neg (fun hh : k = k2 => h hh.symm)]
  | cons p rest ih =>
    obtain ⟨k3, v3⟩ := p
    simp only [dictSet]
    by_cases h3 : k3 = k
    · rw [if_pos h3]
      have hne : ¬k3 = k2 := fun hh => h (hh ▸ h3)
      simp only [dictGet]
      rw [if_neg hne, if_neg hne]
    · rw [if_neg h3]
      simp only [dictGet]
      by_cases h2 : k3 = k2
      · rw [if_pos h2, if_pos h2]
      · rw [if_neg h2, if_neg h2, ih]

theorem dictGet_dictSet_isSome (d : List (Nat × Rating)) {k k2 : Nat} (v : Rating)
    (h : (dictGet d k2).isSome) : (dictGet (dictSet d k v) k2).isSome := by
  by_cases hk : k2 = k
  · subst hk
    simp [dictGet_dictSet_self]
  · rwa [dictGet_dictSet_ne d v hk]

/-! ### `_get_or_create_rating` lemmas -/

theorem getOrCreate_model (cal : Calculator) (pid : Nat) :
    (getOrCreate cal pid).2.model = cal.model := by
  unfold getOrCreate
  cases dictGet cal.players pid <;> rfl

theorem getOrCreate_lookup_self (cal : Calculator) (pid : Nat) :
    dictGet (getOrCreate cal pid).2.players pid = some (getOrCreate cal pid).1 := by
  unfold getOrCreate
  cases h : dictGet cal.players pid with
  | some r => exact h
  | none => simp [dictGet_append, h, dictGet]

theorem getOrCreate_preserves (cal : Calculator) (pid : Nat) {k : Nat} {v : Rating}
    (h : dictGet cal.players k = some v) :
    dictGet (getOrCreate cal pid).2.players k = some v := by
  unfold getOrCreate
  cases h2 : dictGet cal.players pid with
  | some r => exact h
  | none => simp [dictGet_append, h]

theorem getOrCreate_frame (cal : Calculator) {pid k : Nat} (h : k ≠ pid) :
    dictGet (getOrCreate cal pid).2.players k = dictGet cal.players k := by
  unfold getOrCreate
  cases h2 : dictGet cal.players pid with
  | some r => rfl
  | none =>
    simp only [dictGet_append, dictGet, if_neg (fun hh : pid = k => h hh.symm)]
    cases dictGet cal.players k <;> rfl

theorem getOrCreate_sub (cal : Calculator) (pid : Nat) {k : Nat} {v : Rating}
    (h : dictGet (getOrCreate cal pid).2.players k = some v) :
    dictGet cal.players k = some v ∨
      (k = pid ∧ v = cal.model.rating pid ∧ dictGet cal.players pid = none) := by
  by_cases hk : k = pid
  · subst hk
    rw [getOrCreate_lookup_self] at h
    have hv := Option.some.inj h
    cases h2 : dictGet cal.players k with
    | some r =>
      have hr : (getOrCreate cal k).1 = r := by simp [getOrCreate, h2]
      exact Or.inl (by rw [← hr, hv])
    | none =>
      have hr : (getOrCreate cal k).1 = cal.model.rating k := by simp [getOrCreate, h2]
      exact Or.inr ⟨rfl, by rw [← hv, hr], rfl⟩
  · rw [getOrCreate_frame cal hk] at h
    exact Or.inl h

/-! ### Resolution-pass lemmas -/

theorem resolveAll_model (cal : Calculator) (l : List Nat) :
    (resolveAll cal l).2.model = cal.model := by
  induction l generalizing cal with
  | nil => rfl
  | cons pid rest ih => simp [resolveAll, ih, getOrCreate_model]

theorem resolveAll_length (cal : Calculator) (l : List Nat) :
    (resolveAll cal l).1.length = l.length := by
  induction l generalizing cal with
  | nil => rfl
  | cons pid rest ih => simp [resolveAll, ih]

theorem resolveAll_preserves (cal : Calculator) (l : List Nat) {k : Nat} {v : Rating}
    (h : dictGet cal.players k = some v) :
    dictGet (resolveAll cal l).2.players k = some v := by
  induction l generalizing cal with
  | nil => exact h
  | cons pid rest ih => exact ih _ (getOrCreate_preserves cal pid h)

theorem resolveAll_frame (cal : Calculator) (l : List Nat) {k : Nat} (h : k ∉ l) :
    dictGet (resolveAll cal l).2.players k = dictGet cal.players k := by
  induction l generalizing cal with
  | nil => rfl
  | cons pid rest ih =>
    have hne : k ≠ pid := fun hh => h (hh ▸ List.mem_cons_self pid rest)
    have hrest : k ∉ rest := fun hh => h (List.mem_cons_of_mem pid hh)
    simp only [resolveAll]
    rw [ih _ hrest, getOrCreate_frame cal hne]

theorem resolveAll_forall₂ (cal : Calculator) (l : List Nat) :
    List.Forall₂ (fun pid r => dictGet (resolveAll cal l).2.players pid = some r)
      l (resolveAll cal l).1 := by
  induction l generalizing cal with
  | nil => exact List.Forall₂.nil
  | cons pid rest ih =>
    refine List.Forall₂.cons ?_ (ih (getOrCreate cal pid).2)
    exact resolveAll_preserves _ rest (getOrCreate_lookup_self cal pid)

theorem resolveAll_sub (cal : Calculator) (l : List Nat) {k : Nat} {v : Rating}
    (h : dictGet (resolveAll cal l).2.players k = some v) :
    dictGet cal.players k = some v ∨
      (k ∈ l ∧ v = cal.model.rating k ∧ dictGet cal.players k = none) := by
  induction l generalizing cal with
  | nil => exact Or.inl h
  | cons pid rest ih =>
    rcases ih (getOrCreate cal pid).2 h with h2 | ⟨hmem, hv, hnone⟩
    · rcases getOrCreate_sub cal pid h2 with h3 | ⟨hk, hv, hnone⟩
      · exact Or.inl h3
      · subst hk
        exact Or.inr ⟨List.mem_cons_self _ _, hv, hnone⟩
    · by_cases hk : k = pid
      · subst hk
        rw [getOrCreate_lookup_self] at hnone
        cases hnone
      · rw [getOrCreate_frame cal hk] at hnone
        rw [getOrCreate_model] at hv
        exact Or.inr ⟨List.mem_cons_of_mem pid hmem, hv, hnone⟩

/-! ### Update-law lemmas -/

theorem asSingles_map (rs : List Rating) :
    asSingles (rs.map (fun r => [r])) = some rs := by
  induction rs with
  | nil => rfl
  | cons r rest ih => simp [asSingles, ih]

theorem rate_map_ok (m : OSModel) (rs : List Rating) (scores : List Int)
    (h : rs.length = scores.length) :
    m.rate (rs.map (fun r => [r])) scores =
      .ok ((rateCore m rs scores).map (fun r => [r])) := by
  simp [OSModel.rate, List.length_map, h, asSingles_map]

theorem rate_map_err (m : OSModel) (rs : List Rating) (scores : List Int)
    (h : rs.length ≠ scores.length) :
    m.rate (rs.map (fun r => [r])) scores =
      .error "scores length does not match teams length" := by
  simp [OSModel.rate, List.length_map, h]

theorem placements_length (scores : List Int) :
    (placements scores).length = scores.length := by
  simp [placements]

theorem expectedPlacements_length (mus : List ℚ) :
    (expectedPlacements mus).length = mus.length := by
  simp [expectedPlacements]

theorem zip_map_forall₂ (m : OSModel) :
    ∀ (rs : List Rating) (ps : List (Nat × Nat)), rs.length = ps.length →
      List.Forall₂ (fun r u => ∃ e a, u = updateOne m r e a) rs
        ((rs.zip ps).map (fun q => updateOne m q.1 q.2.1 q.2.2))
  | [], _, _ => by simp
  | r :: rest, [], h => by simp at h
  | r :: rest, p :: ps, h => by
    simp only [List.zip_cons_cons, List.map]
    exact List.Forall₂.cons ⟨p.1, p.2, rfl⟩
      (zip_map_forall₂ m rest ps (by simpa using h))

theorem rateCore_forall₂ (m : OSModel) (rs : List Rating) (scores : List Int)
    (h : rs.length = scores.length) :
    List.Forall₂ (fun r u => ∃ e a, u = updateOne m r e a) rs (rateCore m rs scores) := by
  apply zip_map_forall₂
  simp [expectedPlacements_length, placements_length, ← h]

theorem updateOne_sigma_le (m : OSModel) (r : Rating) (e a : Nat)
    (h0 : 0 ≤ m.sigmaFloor) (h1 : m.sigmaShrink ≤ 1) :
    (updateOne m r e a).sigma ≤ r.sigma := by
  simp only [updateOne]
  by_cases hs : r.sigma ≤ m.sigmaFloor
  · rw [if_pos hs]
  · rw [if_neg hs]
    push_neg at hs
    apply max_le hs.le
    calc r.sigma * m.sigmaShrink ≤ r.sigma * 1 :=
          mul_le_mul_of_nonneg_left h1 (le_trans h0 hs.le)
      _ = r.sigma := mul_one r.sigma

/-! ### Write-back lemmas -/

theorem writeBack_lookup :
    ∀ (l : List (Nat × List Rating)) (st st' : List (Nat × Rating)),
      writeBack st l = .ok st' → ∀ k : Nat,
      dictGet st' k = dictGet st k ∨ ∃ r, (k, [r]) ∈ l ∧ dictGet st' k = some r
  | [], st, st', h, k => by
    simp only [writeBack] at h
    exact Or.inl (by rw [← Except.ok.inj h])
  | (pid, []) :: rest, st, st', h, k => by simp [writeBack] at h
  | (pid, [r]) :: rest, st, st', h, k => by
    simp only [writeBack] at h
    rcases writeBack_lookup rest _ _ h k with h2 | ⟨r0, hmem, hget⟩
    · by_cases hk : k = pid
      · subst hk
        rw [dictGet_dictSet_self] at h2
        exact Or.inr ⟨r, List.mem_cons_self _ _, h2⟩
      · rw [dictGet_dictSet_ne st r hk] at h2
        exact Or.inl h2
    · exact Or.inr ⟨r0, List.mem_cons_of_mem _ hmem, hget⟩
  | (pid, r1 :: r2 :: ts) :: rest, st, st', h, k => by simp [writeBack] at h

theorem writeBack_state_frame :
    ∀ (l : List (Nat × List Rating)) (st : List (Nat × Rating)) (k : Nat),
      (∀ t, (k, t) ∉ l) →
      dictGet (wbStore (writeBack st l)) k = dictGet st k
  | [], st, k, _ => rfl
  | (pid, []) :: rest, st, k, _ => rfl
  | (pid, [r]) :: rest, st, k, h => by
    have hk : k ≠ pid := fun hh => h [r] (by rw [hh]; exact List.mem_cons_self _ _)
    have ih := writeBack_state_frame rest (dictSet st pid r) k
      (fun t ht => h t (List.mem_cons_of_mem _ ht))
    simp only [writeBack]
    rw [ih, dictGet_dictSet_ne st r hk]
  | (pid, r1 :: r2 :: ts) :: rest, st, k, _ => rfl

theorem writeBack_isSome_mono :
    ∀ (l : List (Nat × List Rating)) (st : List (Nat × Rating)) (k : Nat),
      (dictGet st k).isSome → (dictGet (wbStore (writeBack st l)) k).isSome
  | [], _, _, h => h
  | (_, []) :: _, _, _, h => h
  | (pid, [r]) :: rest, st, k, h =>
    writeBack_isSome_mono rest (dictSet st pid r) k (dictGet_dictSet_isSome st r h)
  | (_, _ :: _ :: _) :: _, _, _, h => h

theorem writeBack_singletons_ok :
    ∀ (pids : List Nat) (core : List Rating) (st : List (Nat × Rating)),
      ∃ st', writeBack st (pids.zip (core.map (fun r => [r]))) = .ok st'
  | [], _, st => ⟨st, rfl⟩
  | pid :: pids, [], st => ⟨st, rfl⟩
  | pid :: pids, r :: core, st => by
    simp only [List.map, List.zip_cons_cons, writeBack]
    exact writeBack_singletons_ok pids core (dictSet st pid r)

/-! ### `process_game` structural lemmas -/

theorem playerIds_length (g : Game) : (playerIds g).length = 4 := rfl

theorem gameScores_length (rows : List (Nat × Int)) :
    (gameScores rows).length = rows.length := by
  simp [gameScores]

theorem processGame_of_length_eq {cal : Calculator} {g : Game} {scoreRows : List (Nat × Int)}
    (hl : (resolveAll cal (playerIds g)).1.length = (gameScores scoreRows).length) :
    ∃ st', writeBack (resolveAll cal (playerIds g)).2.players
        ((playerIds g).zip
          ((rateCore (resolveAll cal (playerIds g)).2.model (resolveAll cal (playerIds g)).1
              (gameScores scoreRows)).map (fun r => [r]))) = .ok st' ∧
      processGame cal g scoreRows = .ok ⟨(resolveAll cal (playerIds g)).2.model, st'⟩ := by
  obtain ⟨st', hst⟩ :=
    writeBack_singletons_ok (playerIds g)
      (rateCore (resolveAll cal (playerIds g)).2.model (resolveAll cal (playerIds g)).1
        (gameScores scoreRows))
      (resolveAll cal (playerIds g)).2.players
  refine ⟨st', hst, ?_⟩
  have hok := rate_map_ok (resolveAll cal (playerIds g)).2.model _ _ hl
  simp only [processGame, hok, hst]

theorem processGame_of_length_ne {cal : Calculator} {g : Game} {scoreRows : List (Nat × Int)}
    (hl : (resolveAll cal (playerIds g)).1.length ≠ (gameScores scoreRows).length) :
    processGame cal g scoreRows =
      .error ("scores length does not match teams length", (resolveAll cal (playerIds g)).2) := by
  have herr := rate_map_err (resolveAll cal (playerIds g)).2.model _ _ hl
  simp only [processGame, herr]

theorem processGame_error_inv {cal : Calculator} {g : Game} {scoreRows : List (Nat × Int)}
    {e : String} {cal' : Calculator}
    (h : processGame cal g scoreRows = .error (e, cal')) :
    cal' = (resolveAll cal (playerIds g)).2 ∧
      e = "scores length does not match teams length" ∧ scoreRows.length ≠ 4 := by
  by_cases hl : (resolveAll cal (playerIds g)).1.length = (gameScores scoreRows).length
  · obtain ⟨st', _, hok⟩ := processGame_of_length_eq hl
    rw [hok] at h
    cases h
  · rw [processGame_of_length_ne hl] at h
    injection h with h2
    have he : e = "scores length does not match teams length" := (congrArg Prod.fst h2).symm
    have hc : cal' = (resolveAll cal (playerIds g)).2 := (congrArg Prod.snd h2).symm
    refine ⟨hc, he, ?_⟩
    rw [resolveAll_length, playerIds_length, gameScores_length] at hl
    exact fun hh => hl hh.symm

theorem processGame_ok_inv {cal : Calculator} {g : Game} {scoreRows : List (Nat × Int)}
    {cal' : Calculator} (h : processGame cal g scoreRows = .ok cal') :
    cal'.model = cal.model ∧ scoreRows.length = 4 ∧
      writeBack (resolveAll cal (playerIds g)).2.players
        ((playerIds g).zip
          ((rateCore cal.model (resolveAll cal (playerIds g)).1
              (gameScores scoreRows)).map (fun r => [r]))) = .ok cal'.players := by
  by_cases hl : (resolveAll cal (playerIds g)).1.length = (gameScores scoreRows).length
  · obtain ⟨st', hst, hok⟩ := processGame_of_length_eq hl
    rw [hok] at h
    have hc := Except.ok.inj h
    have hm : cal'.model = cal.model := by rw [← hc, resolveAll_model]
    refine ⟨hm, ?_, ?_⟩
    · rw [resolveAll_length, playerIds_length, gameScores_length] at hl
      exact hl.symm
    · rw [← hc]
      rw [resolveAll_model] at hst
      exact hst
  · rw [processGame_of_length_ne hl] at h
    cases h

/-! ### Leaderboard sort lemmas -/

/-- The Boolean predicate selecting the entries with a given score. -/
def scoreIs (q : ℚ) (x : Nat × ℚ) : Bool :=
  x.2 = q

theorem filter_orderedInsert_key (q : ℚ) (a : Nat × ℚ) (l : List (Nat × ℚ)) :
    (List.orderedInsert scoreOrd a l).filter (scoreIs q) =
      if a.2 = q then a :: l.filter (scoreIs q) else l.filter (scoreIs q) := by
  induction l with
  | nil => by_cases h : a.2 = q <;> simp [List.orderedInsert, scoreIs, h]
  | cons b l ih =>
    by_cases hab : scoreOrd a b
    · simp only [List.orderedInsert, if_pos hab]
      by_cases ha : a.2 = q <;> simp [List.filter_cons, scoreIs, ha]
    · have hba : a.2 < b.2 := lt_of_not_le hab
      simp only [List.orderedInsert, if_neg hab]
      by_cases ha : a.2 = q
      · have hb : ¬b.2 = q := by rw [← ha]; exact ne_of_gt hba
        simp [List.filter_cons, scoreIs, hb, ih, ha]
      · by_cases hb : b.2 = q <;> simp [List.filter_cons, scoreIs, hb, ih, ha]

theorem filter_sortRankings (q : ℚ) (l : List (Nat × ℚ)) :
    (sortRankings l).filter (scoreIs q) = l.filter (scoreIs q) := by
  induction l with
  | nil => rfl
  | cons a l ih =>
    simp only [sortRankings] at ih ⊢
    show (List.orderedInsert scoreOrd a (List.insertionSort scoreOrd l)).filter _ = _
    rw [filter_orderedInsert_key]
    by_cases ha : a.2 = q
    · rw [if_pos ha, ih]
      simp [List.filter_cons, scoreIs, ha]
    · rw [if_neg ha, ih]
      simp [List.filter_cons, scoreIs, ha]

theorem sortRankings_sorted (l : List (Nat × ℚ)) :
    List.Sorted scoreOrd (sortRankings l) :=
  List.sorted_insertionSort scoreOrd l

theorem sortRankings_perm (l : List (Nat × ℚ)) : List.Perm (sortRankings l) l :=
  List.perm_insertionSort scoreOrd l

theorem ranksOf_getElem? (l : List (Nat × ℚ)) (i : Nat) :
    (ranksOf l)[i]? = (l[i]?).map (fun p => (p.1, i + 1)) := by
  simp [ranksOf, List.getElem?_map, List.getElem?_enum, Option.map_map]
  rfl

/-! ### Further helper lemmas -/

theorem getOrCreate_of_some {cal : Calculator} {pid : Nat} {r : Rating}
    (h : dictGet cal.players pid = some r) : getOrCreate cal pid = (r, cal) := by
  simp [getOrCreate, h]

theorem getOrCreate_of_none {cal : Calculator} {pid : Nat}
    (h : dictGet cal.players pid = none) :
    getOrCreate cal pid =
      (cal.model.rating pid, ⟨cal.model, cal.players ++ [(pid, cal.model.rating pid)]⟩) := by
  simp [getOrCreate, h]

theorem resolveAll_of_present :
    ∀ (l : List Nat) (cal : Calculator),
      (∀ pid ∈ l, (dictGet cal.players pid).isSome) → (resolveAll cal l).2 = cal
  | [], _, _ => rfl
  | pid :: rest, cal, h => by
    obtain ⟨r, hr⟩ := Option.isSome_iff_exists.mp (h pid (List.mem_cons_self _ _))
    simp only [resolveAll, getOrCreate_of_some hr]
    exact resolveAll_of_present rest cal (fun p hp => h p (List.mem_cons_of_mem _ hp))

theorem processGame_isSome_mono (cal : Calculator) (g : Game) (rows : List (Nat × Int))
    (k : Nat) (h : (dictGet cal.players k).isSome) :
    (dictGet (stateAfter (processGame cal g rows)).players k).isSome := by
  have h1 : (dictGet (resolveAll cal (playerIds g)).2.players k).isSome := by
    obtain ⟨v, hv⟩ := Option.isSome_iff_exists.mp h
    exact Option.isSome_iff_exists.mpr ⟨v, resolveAll_preserves _ _ hv⟩
  cases hp : processGame cal g rows with
  | ok cal' =>
    obtain ⟨hm, hlen, hwb⟩ := processGame_ok_inv hp
    have h2 := writeBack_isSome_mono
      ((playerIds g).zip
        ((rateCore cal.model (resolveAll cal (playerIds g)).1 (gameScores rows)).map
          (fun r => [r])))
      (resolveAll cal (playerIds g)).2.players k h1
    rw [hwb] at h2
    simpa [stateAfter, wbStore] using h2
  | error e =>
    obtain ⟨e0, cal'⟩ := e
    obtain ⟨hc, he, hn⟩ := processGame_error_inv hp
    subst hc
    simpa [stateAfter] using h1

theorem forall₂_comp {α β γ : Type} {P : α → β → Prop} {Q : β → γ → Prop} :
    ∀ {l1 : List α} {l2 : List β} {l3 : List γ},
      List.Forall₂ P l1 l2 → List.Forall₂ Q l2 l3 →
      List.Forall₂ (fun a c => ∃ b, P a b ∧ Q b c) l1 l3
  | _, _, _, .nil, .nil => .nil
  | _, _, _, .cons hp hps, .cons hq hqs => .cons ⟨_, hp, hq⟩ (forall₂_comp hps hqs)

/-! ### Claim theorems -/

/-- C9: `_get_model` maps each of the three supported `RatingModel` variants
to that variant's model object, and the engine constructor succeeds on them
with an empty store; any other value makes `_get_model` (and hence the
constructor) raise a ValueError, with no default model substituted. -/
theorem modelSelection_correct :
    getModel (some RatingModel.PLACKETT_LUCE) = .ok plackettLuce ∧
    getModel (some RatingModel.BRADLEY_TERRY) = .ok bradleyTerryPart ∧
    getModel (some RatingModel.THURSTONE_MOSTELLER) = .ok thurstoneMostellerPart ∧
    mkCalculator (some RatingModel.PLACKETT_LUCE) = .ok ⟨plackettLuce, []⟩ ∧
    mkCalculator (some RatingModel.BRADLEY_TERRY) = .ok ⟨bradleyTerryPart, []⟩ ∧
    mkCalculator (some RatingModel.THURSTONE_MOSTELLER) = .ok ⟨thurstoneMostellerPart, []⟩ ∧
    getModel none = .error "Unknown model type" ∧
    mkCalculator none = .error "Unknown model type" := by
  refine ⟨?_, ?_, ?_, ?_, ?_, ?_, ?_, ?_⟩ <;> rfl

/-- C4: determinism of the full leaderboard computation — two runs of
`get_player_rankings` on identical materialized game histories produce
identical per-model leaderboards. -/
theorem buildAll_deterministic (h1 h2 : History) (he : h1 = h2) :
    getPlayerRankings h1 = getPlayerRankings h2 := by
  rw [he]

theorem buildAll_deterministic_witness :
    getPlayerRankings [(⟨1, 2, 3, 4⟩, [(1, 90), (2, 70), (3, 50), (4, 30)])] =
      getPlayerRankings [(⟨1, 2, 3, 4⟩, [(1, 90), (2, 70), (3, 50), (4, 30)])] :=
  buildAll_deterministic _ _ rfl

/-- C5: computing the three models' leaderboards in one `get_player_rankings`
call equals running three independent single-model passes, each starting from
a fresh empty store — no belief state crosses between models. -/
theorem buildAll_eq_independent_runs (h : History) :
    getPlayerRankings h =
      (runSingle RatingModel.PLACKETT_LUCE h).bind (fun pl =>
        (runSingle RatingModel.BRADLEY_TERRY h).bind (fun bt =>
          (runSingle RatingModel.THURSTONE_MOSTELLER h).map (fun tm =>
            [(RatingModel.PLACKETT_LUCE, pl),
             (RatingModel.BRADLEY_TERRY, bt),
             (RatingModel.THURSTONE_MOSTELLER, tm)]))) := by
  simp only [getPlayerRankings, allModels, buildAll, runSingle]
  cases calculateRatings ⟨modelFor RatingModel.PLACKETT_LUCE, []⟩ h <;>
    cases calculateRatings ⟨modelFor RatingModel.BRADLEY_TERRY, []⟩ h <;>
      cases calculateRatings ⟨modelFor RatingModel.THURSTONE_MOSTELLER, []⟩ h <;>
        simp [Except.bind, Except.map]

/-- C8: `_get_or_create_rating` returns the stored belief and leaves the
store unchanged when the identity is present, otherwise inserts exactly the
model's default prior for that identity and returns it; and processing a game
never removes a store entry, so an observed identity keeps resolving. -/
theorem getOrCreate_spec (cal : Calculator) (pid : Nat) :
    (∀ r, dictGet cal.players pid = some r → getOrCreate cal pid = (r, cal)) ∧
    (dictGet cal.players pid = none →
      getOrCreate cal pid =
        (cal.model.rating pid,
          ⟨cal.model, cal.players ++ [(pid, cal.model.rating pid)]⟩)) ∧
    (∀ (g : Game) (rows : List (Nat × Int)) (k : Nat),
      (dictGet cal.players k).isSome →
      (dictGet (stateAfter (processGame cal g rows)).players k).isSome) :=
  ⟨fun _ h => getOrCreate_of_some h, fun h => getOrCreate_of_none h,
   fun g rows k h => processGame_isSome_mono cal g rows k h⟩

theorem getOrCreate_spec_witness :
    getOrCreate ⟨plackettLuce, []⟩ 7 =
      (plackettLuce.rating 7, ⟨plackettLuce, [(7, plackettLuce.rating 7)]⟩) :=
  (getOrCreate_spec ⟨plackettLuce, []⟩ 7).2.1 rfl

/-- C10: frame property of `process_game` — the belief of every player
outside the game's four seats is untouched (in both the success and the error
outcome), and no existing store entry is removed. -/
theorem processGame_frame (cal : Calculator) (g : Game) (rows : List (Nat × Int))
    (pid : Nat) (hp : pid ∉ playerIds g) :
    dictGet (stateAfter (processGame cal g rows)).players pid = dictGet cal.players pid ∧
    (∀ k, (dictGet cal.players k).isSome →
      (dictGet (stateAfter (processGame cal g rows)).players k).isSome) := by
  refine ⟨?_, fun k hk => processGame_isSome_mono cal g rows k hk⟩
  cases hq : processGame cal g rows with
  | ok cal' =>
    obtain ⟨hm, hlen, hwb⟩ := processGame_ok_inv hq
    have hfr : ∀ t, (pid, t) ∉ (playerIds g).zip
        ((rateCore cal.model (resolveAll cal (playerIds g)).1 (gameScores rows)).map
          (fun r => [r])) :=
      fun t ht => hp (List.of_mem_zip ht).1
    have h2 := writeBack_state_frame _ (resolveAll cal (playerIds g)).2.players pid hfr
    rw [hwb] at h2
    rw [resolveAll_frame cal (playerIds g) hp] at h2
    simpa [stateAfter, wbStore] using h2
  | error e =>
    obtain ⟨e0, cal'⟩ := e
    obtain ⟨hc, he, hn⟩ := processGame_error_inv hq
    subst hc
    simpa [stateAfter] using resolveAll_frame cal (playerIds g) hp

theorem processGame_frame_witness :
    dictGet (stateAfter (processGame ⟨plackettLuce, [(9, plackettLuce.rating 9)]⟩
        ⟨1, 2, 3, 4⟩ [(1, 90), (2, 70), (3, 50), (4, 30)])).players 9 =
      dictGet [(9, plackettLuce.rating 9)] 9 :=
  (processGame_frame ⟨plackettLuce, [(9, plackettLuce.rating 9)]⟩ ⟨1, 2, 3, 4⟩
    [(1, 90), (2, 70), (3, 50), (4, 30)] 9 (by decide)).1

/-- C1: the score fed to the update law for each seat is the score row in the
same *query position*, not the row recorded for that seat's player: with seats
(2, 1, 3, 4) and rows [(1, 100), (2, 0), (3, 50), (4, 25)], participant 2 is
paired with 100 although participant 2's recorded score is 0, and downstream
the player who recorded 100 (player 1) ends with a lower mean than the player
who recorded 0 (player 2).  The in-code comment claims the scores are sorted
by player position; they are not. -/
theorem scoreAlignment_bug :
    (playerIds ⟨2, 1, 3, 4⟩).zip (gameScores [(1, 100), (2, 0), (3, 50), (4, 25)]) =
      [(2, 100), (1, 0), (3, 50), (4, 25)] ∧
    List.lookup 2 [((1 : Nat), (100 : Int)), (2, 0), (3, 50), (4, 25)] = some 0 ∧
    processGame ⟨plackettLuce, []⟩ ⟨2, 1, 3, 4⟩ [(1, 100), (2, 0), (3, 50), (4, 25)] =
      .ok ⟨plackettLuce,
        [(2, ⟨2, 25, 15/2⟩), (1, ⟨1, 22, 15/2⟩),
         (3, ⟨3, 24, 15/2⟩), (4, ⟨4, 23, 15/2⟩)]⟩ ∧
    (22 : ℚ) < 25 := by
  refine ⟨by decide, by decide, ?_, by norm_num⟩
  norm_num [processGame, resolveAll, getOrCreate, dictGet, dictSet, writeBack, playerIds,
    gameScores, OSModel.rate, asSingles, rateCore, placements, expectedPlacements, updateOne,
    OSModel.rating, plackettLuce]

/-- C3 (amended): a game whose score-row list does not have exactly 4 entries
— as happens for a duplicate participant, whose association rows collapse into
one — always makes the update-law call fail and the run abort with an error,
whatever the calculator state; the engine has no lenient mode and no
strict/lenient configuration. -/
theorem malformedGame_always_aborts (cal : Calculator) (g : Game)
    (rows : List (Nat × Int)) (h : rows.length ≠ 4) :
    processGame cal g rows =
      .error ("scores length does not match teams length",
        (resolveAll cal (playerIds g)).2) := by
  apply processGame_of_length_ne
  rw [resolveAll_length, playerIds_length, gameScores_length]
  exact fun hh => h hh.symm

theorem malformedGame_always_aborts_witness :
    processGame ⟨plackettLuce, []⟩ ⟨1, 1, 2, 3⟩ [(1, 40), (2, 30), (3, 20)] =
      .error ("scores length does not match teams length",
        (resolveAll ⟨plackettLuce, []⟩ (playerIds ⟨1, 1, 2, 3⟩)).2) :=
  malformedGame_always_aborts ⟨plackettLuce, []⟩ ⟨1, 1, 2, 3⟩
    [(1, 40), (2, 30), (3, 20)] (by decide)

/-- C3 counterexample: on a history whose first game is malformed (duplicate
participant, hence 3 score rows) followed by a well-formed game, the run
errors out under every one of the three constructible engines — the game is
never skipped, processing never continues, and no configuration offers a
lenient behaviour. -/
theorem noLenientMode_counterexample :
    calculateRatings ⟨modelFor RatingModel.PLACKETT_LUCE, []⟩
        [(⟨1, 1, 2, 3⟩, [(1, 40), (2, 30), (3, 20)]),
         (⟨4, 5, 6, 7⟩, [(4, 40), (5, 30), (6, 20), (7, 10)])] =
      .error ("scores length does not match teams length",
        ⟨plackettLuce, [(1, plackettLuce.rating 1), (2, plackettLuce.rating 2),
          (3, plackettLuce.rating 3)]⟩) ∧
    calculateRatings ⟨modelFor RatingModel.BRADLEY_TERRY, []⟩
        [(⟨1, 1, 2, 3⟩, [(1, 40), (2, 30), (3, 20)]),
         (⟨4, 5, 6, 7⟩, [(4, 40), (5, 30), (6, 20), (7, 10)])] =
      .error ("scores length does not match teams length",
        ⟨bradleyTerryPart, [(1, bradleyTerryPart.rating 1), (2, bradleyTerryPart.rating 2),
          (3, bradleyTerryPart.rating 3)]⟩) ∧
    calculateRatings ⟨modelFor RatingModel.THURSTONE_MOSTELLER, []⟩
        [(⟨1, 1, 2, 3⟩, [(1, 40), (2, 30), (3, 20)]),
         (⟨4, 5, 6, 7⟩, [(4, 40), (5, 30), (6, 20), (7, 10)])] =
      .error ("scores length does not match teams length",
        ⟨thurstoneMostellerPart,
          [(1, thurstoneMostellerPart.rating 1), (2, thurstoneMostellerPart.rating 2),
           (3, thurstoneMostellerPart.rating 3)]⟩) :=
  ⟨rfl, rfl, rfl⟩

/-- C6 (amended): when processing a game raises (the update-law call fails),
no write-back at all is applied: every player already in the store keeps
exactly the belief they had before the game, players outside the game are
untouched, and if all four participants were already present the store is
exactly unchanged.  The only possible change is the lazy insertion of
default-prior entries for participants seen for the first time in that
game. -/
theorem processGame_error_no_update (cal : Calculator) (g : Game)
    (rows : List (Nat × Int)) (e : String) (cal' : Calculator)
    (h : processGame cal g rows = .error (e, cal')) :
    (∀ pid r, dictGet cal.players pid = some r → dictGet cal'.players pid = some r) ∧
    (∀ pid, pid ∉ playerIds g → dictGet cal'.players pid = dictGet cal.players pid) ∧
    ((∀ pid ∈ playerIds g, (dictGet cal.players pid).isSome) → cal' = cal) := by
  obtain ⟨hc, he, hn⟩ := processGame_error_inv h
  subst hc
  exact ⟨fun pid r hr => resolveAll_preserves cal (playerIds g) hr,
    fun pid hp => resolveAll_frame cal (playerIds g) hp,
    fun hall => resolveAll_of_present (playerIds g) cal hall⟩

theorem processGame_error_no_update_witness :
    dictGet (⟨plackettLuce,
        [(1, plackettLuce.rating 1), (2, plackettLuce.rating 2),
         (3, plackettLuce.rating 3), (4, plackettLuce.rating 4)]⟩ : Calculator).players 1 =
      some (plackettLuce.rating 1) :=
  (processGame_error_no_update ⟨plackettLuce, [(1, plackettLuce.rating 1)]⟩ ⟨1, 2, 3, 4⟩
      [(1, 40)] "scores length does not match teams length"
      ⟨plackettLuce,
        [(1, plackettLuce.rating 1), (2, plackettLuce.rating 2),
         (3, plackettLuce.rating 3), (4, plackettLuce.rating 4)]⟩ rfl).1
    1 (plackettLuce.rating 1) rfl

/-- C6 counterexample: a failing update-law call does *not* leave the store
exactly as it was before the game — starting from an empty store, processing a
game whose rate call fails leaves four freshly inserted default-prior
entries. -/
theorem updateFailure_store_changed_counterexample :
    processGame ⟨plackettLuce, []⟩ ⟨1, 2, 3, 4⟩ [(1, 40), (2, 30), (3, 20)] =
      .error ("scores length does not match teams length",
        ⟨plackettLuce, [(1, plackettLuce.rating 1), (2, plackettLuce.rating 2),
          (3, plackettLuce.rating 3), (4, plackettLuce.rating 4)]⟩) ∧
    [(1, plackettLuce.rating 1), (2, plackettLuce.rating 2), (3, plackettLuce.rating 3),
      (4, plackettLuce.rating 4)] ≠ ([] : List (Nat × Rating)) :=
  ⟨rfl, by simp⟩

/-- C2 (amended): for every model, the leaderboard built by
`get_player_rankings` is the calculated ratings list sorted by score
descending: it is sorted, it is a permutation of the ratings list, entries
with equal scores keep the stable first-observed order of the ratings list
(they are *not* reordered by player identity), and the rank assigned to the
entry at position i of the sorted list is i + 1. -/
theorem leaderboard_sorted_stable (mt : RatingModel) (h : History)
    (raw : List (Nat × ℚ))
    (hraw : calculateRatings ⟨modelFor mt, []⟩ h = .ok raw) :
    runSingle mt h = .ok (sortRankings raw) ∧
    List.Sorted scoreOrd (sortRankings raw) ∧
    List.Perm (sortRankings raw) raw ∧
    (∀ q, (sortRankings raw).filter (scoreIs q) = raw.filter (scoreIs q)) ∧
    (∀ i, (ranksOf (sortRankings raw))[i]? =
      ((sortRankings raw)[i]?).map (fun p => (p.1, i + 1))) := by
  refine ⟨?_, sortRankings_sorted raw, sortRankings_perm raw,
    fun q => filter_sortRankings q raw, fun i => ranksOf_getElem? (sortRankings raw) i⟩
  simp [runSingle, hraw, Except.map]

theorem leaderboard_sorted_stable_witness :
    calculateRatings ⟨modelFor RatingModel.PLACKETT_LUCE, []⟩
        [(⟨5, 1, 2, 3⟩, [(5, 50), (1, 50), (2, 50), (3, 50)])] =
      .ok [(5, 5/2), (1, 5/2), (2, 5/2), (3, 5/2)] ∧
    runSingle RatingModel.PLACKETT_LUCE
        [(⟨5, 1, 2, 3⟩, [(5, 50), (1, 50), (2, 50), (3, 50)])] =
      .ok (sortRankings [(5, 5/2), (1, 5/2), (2, 5/2), (3, 5/2)]) := by
  have hraw : calculateRatings ⟨modelFor RatingModel.PLACKETT_LUCE, []⟩
      [(⟨5, 1, 2, 3⟩, [(5, 50), (1, 50), (2, 50), (3, 50)])] =
      .ok [(5, 5/2), (1, 5/2), (2, 5/2), (3, 5/2)] := by
    norm_num [calculateRatings, runGames, finalRatings, processGame, resolveAll, getOrCreate,
      dictGet, dictSet, writeBack, playerIds, gameScores, OSModel.rate, asSingles, rateCore,
      placements, expectedPlacements, updateOne, OSModel.rating, modelFor, plackettLuce,
      ordinal, Except.map]
  exact ⟨hraw, (leaderboard_sorted_stable RatingModel.PLACKETT_LUCE _ _ hraw).1⟩

/-- C2 counterexample: four players with identical scores — the leaderboard
keeps the first-observed order 5, 1, 2, 3, so among equal scores the larger
identity 5 appears before the smaller identity 1, contradicting the claimed
ascending-identity tie-break. -/
theorem leaderboard_tieBreak_counterexample :
    runSingle RatingModel.PLACKETT_LUCE
        [(⟨5, 1, 2, 3⟩, [(5, 50), (1, 50), (2, 50), (3, 50)])] =
      .ok [(5, 5/2), (1, 5/2), (2, 5/2), (3, 5/2)] ∧ (1 : Nat) < 5 := by
  refine ⟨?_, by decide⟩
  norm_num [runSingle, calculateRatings, runGames, finalRatings, processGame, resolveAll,
    getOrCreate, dictGet, dictSet, writeBack, playerIds, gameScores, OSModel.rate, asSingles,
    rateCore, placements, expectedPlacements, updateOne, OSModel.rating, modelFor, plackettLuce,
    ordinal, sortRankings, List.insertionSort, List.orderedInsert, scoreOrd, Except.map]

/-- C7: uncertainty monotonicity — for each of the engine's three models, a
successful `process_game` never increases any participant's uncertainty: the
written-back belief's sigma is at most the sigma of the belief the player was
resolved to when the game was processed, which is the player's pre-game belief
when present and the model's default prior at first sight. -/
theorem uncertainty_monotone (mt : RatingModel) (cal : Calculator) (g : Game)
    (rows : List (Nat × Int)) (cal' : Calculator)
    (hm : cal.model = modelFor mt)
    (hok : processGame cal g rows = .ok cal')
    (pid : Nat) (_hpid : pid ∈ playerIds g) (r r' : Rating)
    (hpre : dictGet (resolveAll cal (playerIds g)).2.players pid = some r)
    (hpost : dictGet cal'.players pid = some r') :
    r'.sigma ≤ r.sigma ∧
    (∀ rPre, dictGet cal.players pid = some rPre → r = rPre) ∧
    (dictGet cal.players pid = none → r = cal.model.rating pid) := by
  obtain ⟨hmodel, hlen, hwb⟩ := processGame_ok_inv hok
  refine ⟨?_, ?_, ?_⟩
  · rcases writeBack_lookup _ _ _ hwb pid with hsame | ⟨r0, hmem, hget⟩
    · rw [hpost, hpre] at hsame
      cases Option.some.inj hsame
      exact le_refl _
    · rw [hpost] at hget
      cases Option.some.inj hget
      rw [List.zip_map_right] at hmem
      obtain ⟨ab, hab, heq⟩ := List.mem_map.mp hmem
      obtain ⟨a, b⟩ := ab
      simp only [Prod.map, id_eq, Prod.mk.injEq, List.cons.injEq, and_true] at heq
      obtain ⟨ha, hb⟩ := heq
      subst ha
      subst hb
      have hlen2 : (resolveAll cal (playerIds g)).1.length = (gameScores rows).length := by
        rw [resolveAll_length, playerIds_length, gameScores_length, hlen]
      have hF := forall₂_comp (resolveAll_forall₂ cal (playerIds g))
        (rateCore_forall₂ cal.model (resolveAll cal (playerIds g)).1 (gameScores rows) hlen2)
      obtain ⟨rmid, hr1, e1, p1, hb2⟩ := List.forall₂_zip hF hab
      rw [hpre] at hr1
      cases Option.some.inj hr1
      rw [hb2]
      apply updateOne_sigma_le
      · rw [hm]
        cases mt <;>
          norm_num [modelFor, plackettLuce, bradleyTerryPart, thurstoneMostellerPart]
      · rw [hm]
        cases mt <;>
          norm_num [modelFor, plackettLuce, bradleyTerryPart, thurstoneMostellerPart]
  · intro rPre hrp
    have := resolveAll_preserves cal (playerIds g) hrp
    rw [hpre] at this
    exact Option.some.inj this
  · intro hnone
    rcases resolveAll_sub cal (playerIds g) hpre with h2 | ⟨_, hv, _⟩
    · rw [hnone] at h2
      cases h2
    · exact hv

theorem uncertainty_monotone_witness :
    processGame ⟨plackettLuce, []⟩ ⟨1, 2, 3, 4⟩ [(1, 90), (2, 70), (3, 50), (4, 30)] =
      .ok ⟨plackettLuce,
        [(1, ⟨1, 25, 15/2⟩), (2, ⟨2, 24, 15/2⟩), (3, ⟨3, 23, 15/2⟩), (4, ⟨4, 22, 15/2⟩)]⟩ ∧
    ((15 / 2 : ℚ) ≤ 25 / 3) := by
  have hok : processGame ⟨plackettLuce, []⟩ ⟨1, 2, 3, 4⟩ [(1, 90), (2, 70), (3, 50), (4, 30)] =
      .ok ⟨plackettLuce,
        [(1, ⟨1, 25, 15/2⟩), (2, ⟨2, 24, 15/2⟩), (3, ⟨3, 23, 15/2⟩), (4, ⟨4, 22, 15/2⟩)]⟩ := by
    norm_num [processGame, resolveAll, getOrCreate, dictGet, dictSet, writeBack, playerIds,
      gameScores, OSModel.rate, asSingles, rateCore, placements, expectedPlacements, updateOne,
      OSModel.rating, plackettLuce]
  refine ⟨hok, ?_⟩
  exact (uncertainty_monotone RatingModel.PLACKETT_LUCE ⟨plackettLuce, []⟩ ⟨1, 2, 3, 4⟩
    [(1, 90), (2, 70), (3, 50), (4, 30)]
    ⟨plackettLuce,
      [(1, ⟨1, 25, 15/2⟩), (2, ⟨2, 24, 15/2⟩), (3, ⟨3, 23, 15/2⟩), (4, ⟨4, 22, 15/2⟩)]⟩
    rfl hok 1 (by decide) ⟨1, 25, 25/3⟩ ⟨1, 25, 15/2⟩ (by rfl) (by rfl)).1

end TRR
